import Mathlib

/-
Verification of the kink-map-driven dislocation-structure builder described in
the matscipy documentation notebook `docs/applications/disloc_mobility.ipynb`
and its accompanying design specification.  The builder itself lives in
`matscipy.dislocation`, outside this artifact, so every definition below is a
shallow embedding reconstructed from the specification text (data model §3,
component design §4.1, failure modes §7).
-/

namespace Kink

/-- A 3-vector with rational components, standing for an atomic position or a
lattice vector. -/
structure Vec3 where
  x : ℚ
  y : ℚ
  z : ℚ
deriving DecidableEq

/-- An atom: a species label together with a position. -/
structure Atom where
  species : String
  pos : Vec3
deriving DecidableEq

/-- A 3x3 lattice cell, as three row vectors `a`, `b`, `c`; the `c` row is the
z cell vector, whose x/y components hold any shear (cell-shift) term. -/
structure Cell where
  a : Vec3
  b : Vec3
  c : Vec3
deriving DecidableEq

/-- Modelled from the spec: `AtomicStructure` (§3) of `matscipy.dislocation`,
absent from src/ — positions plus species labels, lattice cell vectors and
periodic-boundary flags. -/
structure AtomicStructure where
  atoms : List Atom
  cell : Cell
  pbc : Bool × Bool × Bool
deriving DecidableEq

/-- Modelled from the spec: `UnitCell` (§3) — the periodic z-slice template:
atom positions, in-plane cell vectors, the z period, and the in-plane glide
vector used for the quadrupole cell-shift. -/
structure UnitCell where
  atoms : List Atom
  a : Vec3
  b : Vec3
  zPeriod : ℚ
  glide : ℚ × ℚ
deriving DecidableEq

/-- A glide offset: one integer per independently-glideable dislocation core
(a scalar kink map uses arity-1 tuples). -/
abbrev Offset := List Int

/-- Modelled from the spec: `KinkMap` (§3) — ordered sequence of per-slice
glide offsets. -/
abbrev KinkMap := List Offset

/-- Modelled from the spec: `GlideStructureSet` (§3) — a mapping from the
distinct offset tuples of the kink map to reference structures, keyed by the
exact combination of offsets. -/
abbrev GlideStructureSet := List (Offset × AtomicStructure)

/-- Periodic-boundary handling strategy of the builder (§4.1). -/
inductive Mode
  | cylinder
  | quadrupole
deriving DecidableEq

/-- Modelled from the spec: the named failure kinds of the builder (§7), each
carrying the offending offset tuple where one exists. -/
inductive BuildError
  | invalidKinkMap
  | missingReference (off : Offset)
  | structureMismatch (off : Offset)
deriving DecidableEq

/-- Exact-combination lookup in a `GlideStructureSet`: the key is the whole
offset tuple, never a per-core component. -/
def findStruct : GlideStructureSet → Offset → Option AtomicStructure
  | [], _ => none
  | (k, s) :: rest, o => if k = o then some s else findStruct rest o

/-- The placeholder structure used as the default of a lookup; assembly only
ever runs after validation has ruled every lookup successful. -/
def emptyStructure : AtomicStructure :=
  { atoms := []
  , cell := { a := ⟨0, 0, 0⟩, b := ⟨0, 0, 0⟩, c := ⟨0, 0, 0⟩ }
  , pbc := (false, false, false) }

/-- The reference structure registered for an offset (total version, meaningful
once validation has succeeded). -/
def structFor (gset : GlideStructureSet) (o : Offset) : AtomicStructure :=
  (findStruct gset o).getD emptyStructure

/-- Species layout of a list of atoms, compared slice against template during
validation. -/
def speciesOf (ats : List Atom) : List String := ats.map Atom.species

/-- Tuple-arity consistency of a kink map: every offset tuple has the arity of
the first. -/
def arityOk : KinkMap → Bool
  | [] => true
  | o :: rest => rest.all (fun p => decide (p.length = o.length))

/-- First offset of the kink map that has no entry in the glide-structure set,
in map order. -/
def firstMissing (gset : GlideStructureSet) : KinkMap → Option Offset
  | [] => none
  | o :: rest =>
    match findStruct gset o with
    | none => some o
    | some _ => firstMissing gset rest

/-- First offset of the kink map whose reference structure disagrees with the
unit cell in atom count or species layout, in map order. -/
def firstMismatch (gset : GlideStructureSet) (u : UnitCell) : KinkMap → Option Offset
  | [] => none
  | o :: rest =>
    if speciesOf (structFor gset o).atoms = speciesOf u.atoms then firstMismatch gset u rest
    else some o

/-- Translate one atom along z. -/
def translateZ (dz : ℚ) (a0 : Atom) : Atom :=
  { a0 with pos := { a0.pos with z := a0.pos.z + dz } }

/-- Atoms of the kink structure: slice `i` copies the reference structure of
`km[i]` translated by `i` slice heights in z, slices concatenated in order
(§4.1 step 2-3); the first argument is the index of the first slice. -/
def stackSlices (gset : GlideStructureSet) (zp : ℚ) : Nat → KinkMap → List Atom
  | _, [] => []
  | i, o :: rest =>
    ((structFor gset o).atoms.map (translateZ ((i : ℚ) * zp)))
      ++ stackSlices gset zp (i + 1) rest

/-- `n` stacked z-copies of a fixed atom list, starting at slice index `i`:
the zero-offset replication used for the bulk reference. -/
def repAtoms (ats : List Atom) (zp : ℚ) : Nat → Nat → List Atom
  | _, 0 => []
  | i, n + 1 => (ats.map (translateZ ((i : ℚ) * zp))) ++ repAtoms ats zp (i + 1) n

/-- Offset jump across the periodic seam, `kink_map[-1] - kink_map[0]`,
contracted to one integer (tuple components summed; an arity-1 map gives the
plain difference of its scalar entries). -/
def offsetJump (km : KinkMap) : Int :=
  (List.zipWith (fun a b => a - b) (km.getLastD []) (km.headD [])).foldr (fun a b => a + b) 0

/-- An integer multiple of the in-plane glide vector. -/
def scaleGlide (k : Int) (g : ℚ × ℚ) : ℚ × ℚ := ((k : ℚ) * g.1, (k : ℚ) * g.2)

/-- Modelled from the spec: the shear (cell-shift) term of the output cell —
zero in CYLINDER mode (§4.1 cylinder step 4), `(kink_map[-1] - kink_map[0]) *
glide_vector` in QUADRUPOLE mode (§4.1 quadrupole step 3). -/
def shearTerm (m : Mode) (km : KinkMap) (g : ℚ × ℚ) : ℚ × ℚ :=
  match m with
  | .cylinder => (0, 0)
  | .quadrupole => scaleGlide (offsetJump km) g

/-- Output lattice: x/y cell vectors copied unchanged from the unit cell,
z vector scaled to `n * zPeriod` with the shear term in its x/y components. -/
def outCell (u : UnitCell) (n : Nat) (s : ℚ × ℚ) : Cell :=
  { a := u.a, b := u.b, c := { x := s.1, y := s.2, z := (n : ℚ) * u.zPeriod } }

/-- Periodic-boundary flags of the output: a cylinder is periodic along z
only, a quadrupole along all three cell vectors. -/
def modePbc : Mode → Bool × Bool × Bool
  | .cylinder => (false, false, true)
  | .quadrupole => (true, true, true)

/-- Modelled from the spec: `build(kink_map, glide_structures, unit_cell,
mode) -> (bulk_reference, kink_structure)` (§4.1) of `matscipy.dislocation`,
absent from src/.  Preconditions are checked eagerly, fail-fast, before any
assembly (§7): empty map and inconsistent arity give `InvalidKinkMapError`, an
offset without a reference gives `MissingReferenceError`, an atom-count or
species mismatch against the unit cell gives `StructureMismatchError`.  The
bulk reference replicates the zero-offset unit-cell template. -/
def build (km : KinkMap) (gset : GlideStructureSet) (u : UnitCell) (m : Mode) :
    Except BuildError (AtomicStructure × AtomicStructure) :=
  if km.isEmpty then .error .invalidKinkMap
  else if arityOk km = false then .error .invalidKinkMap
  else
    match firstMissing gset km with
    | some o => .error (.missingReference o)
    | none =>
      match firstMismatch gset u km with
      | some o => .error (.structureMismatch o)
      | none =>
        let cell := outCell u km.length (shearTerm m km u.glide)
        let pbc := modePbc m
        .ok ( { atoms := repAtoms u.atoms u.zPeriod 0 km.length, cell := cell, pbc := pbc }
            , { atoms := stackSlices gset u.zPeriod 0 km, cell := cell, pbc := pbc } )

/-- The notebook's cylinder entry point, the core builder in CYLINDER mode. -/
def build_kink_cylinder (km : KinkMap) (gset : GlideStructureSet) (u : UnitCell) :
    Except BuildError (AtomicStructure × AtomicStructure) :=
  build km gset u .cylinder

/-- The notebook's quadrupole entry point, the core builder in QUADRUPOLE
mode. -/
def build_kink_quadrupole (km : KinkMap) (gset : GlideStructureSet) (u : UnitCell) :
    Except BuildError (AtomicStructure × AtomicStructure) :=
  build km gset u .quadrupole

/-- Append an offset to an accumulator unless already present: one step of the
first-occurrence deduplication of a kink map. -/
def addUnique (acc : KinkMap) (o : Offset) : KinkMap :=
  if o ∈ acc then acc else acc ++ [o]

/-- The distinct offsets of a kink map, in order of first occurrence. -/
def uniques (km : KinkMap) : KinkMap := km.foldl addUnique []

/-- Index of the first occurrence of an offset in a list of offsets. -/
def idxOf : KinkMap → Offset → Nat
  | [], _ => 0
  | a :: rest, o => if a = o then 0 else idxOf rest o + 1

/-- Modelled from the spec: `build_kink_glide_structs` of
`matscipy.dislocation`, absent from src/ — the first stage of the two-stage
pipeline (notebook cell 18): it validates exactly as `build` does, then returns
the reference bulk, one glide structure per distinct offset of the kink map,
and a struct map sending each slice to the index of its glide structure. -/
def build_kink_glide_structs (km : KinkMap) (gset : GlideStructureSet) (u : UnitCell) :
    Except BuildError (AtomicStructure × List AtomicStructure × List Nat) :=
  if km.isEmpty then .error .invalidKinkMap
  else if arityOk km = false then .error .invalidKinkMap
  else
    match firstMissing gset km with
    | some o => .error (.missingReference o)
    | none =>
      match firstMismatch gset u km with
      | some o => .error (.structureMismatch o)
      | none =>
        let cell := outCell u km.length (0, 0)
        .ok ( { atoms := repAtoms u.atoms u.zPeriod 0 km.length, cell := cell
              , pbc := modePbc .cylinder }
            , (uniques km).map (structFor gset)
            , km.map (idxOf (uniques km)) )

/-- Stack the glide structures selected by a struct map, slice `i` translated
by `i` slice heights in z; the first argument is the index of the first
slice. -/
def stackIdx (gs : List AtomicStructure) (zp : ℚ) : Nat → List Nat → List Atom
  | _, [] => []
  | i, j :: rest =>
    ((gs.getD j emptyStructure).atoms.map (translateZ ((i : ℚ) * zp)))
      ++ stackIdx gs zp (i + 1) rest

/-- Modelled from the spec: `build_kink_from_glide_cyls` of
`matscipy.dislocation`, absent from src/ — the second stage of the two-stage
pipeline (notebook cell 18): assemble the kink cylinder from the already-built
glide structures, one slice per struct-map entry, recovering the slice height
from the reference bulk's z cell vector. -/
def build_kink_from_glide_cyls (refBulk : AtomicStructure) (gs : List AtomicStructure)
    (sm : List Nat) : AtomicStructure × AtomicStructure :=
  let zp := refBulk.cell.c.z / (sm.length : ℚ)
  (refBulk, { atoms := stackIdx gs zp 0 sm, cell := refBulk.cell, pbc := refBulk.pbc })

/-- Number of offset transitions interior to one period of the kink map:
adjacent slices with different offsets. -/
def internalTransitions : KinkMap → Nat
  | [] => 0
  | [_] => 0
  | a :: b :: rest => (if a = b then 0 else 1) + internalTransitions (b :: rest)

/-- The shear term carried by an output cell: the in-plane components of its z
cell vector. -/
def cellShear (c : Cell) : ℚ × ℚ := (c.c.x, c.c.y)

/-- Whether the periodic seam carries a transition: the periodic image of the
first slice continues the last slice exactly when the cell's shear term equals
`(kink_map[-1] - kink_map[0]) * glide_vector`; any other shear leaves a jump
at the seam. -/
def seamTransitions (km : KinkMap) (shear : ℚ × ℚ) (g : ℚ × ℚ) : Nat :=
  if shear = scaleGlide (offsetJump km) g then 0 else 1

/-- Offset transitions of a built structure over one full periodic image: the
interior transitions of the kink map plus the seam transition its cell's shear
term leaves unrepaired. -/
def transitionCount (km : KinkMap) (out : AtomicStructure) (g : ℚ × ℚ) : Nat :=
  internalTransitions km + seamTransitions km (cellShear out.cell) g

/-! ### Concrete fixtures

A minimal one-atom silicon unit cell with unit z period and glide vector
(1, 0), and reference structures for offsets 0 and 1 (and, for the tuple
claims, for selected offset pairs).  Used by the witnesses. -/

/-- A one-atom basis at the origin. -/
def wAtom : Atom := { species := "Si", pos := { x := 0, y := 0, z := 0 } }

/-- Unit-cell fixture: one atom, unit cube, glide vector (1, 0). -/
def wUnit : UnitCell :=
  { atoms := [wAtom], a := ⟨1, 0, 0⟩, b := ⟨0, 1, 0⟩, zPeriod := 1, glide := (1, 0) }

/-- Reference structure at offset 0: the atom at the origin. -/
def wStruct0 : AtomicStructure :=
  { atoms := [wAtom]
  , cell := { a := ⟨1, 0, 0⟩, b := ⟨0, 1, 0⟩, c := ⟨0, 0, 1⟩ }
  , pbc := (false, false, true) }

/-- Reference structure at offset 1: the atom glided by one glide vector. -/
def wStruct1 : AtomicStructure :=
  { atoms := [{ species := "Si", pos := { x := 1, y := 0, z := 0 } }]
  , cell := { a := ⟨1, 0, 0⟩, b := ⟨0, 1, 0⟩, c := ⟨0, 0, 1⟩ }
  , pbc := (false, false, true) }

/-- Glide-structure fixture covering the scalar offsets 0 and 1. -/
def wGset : GlideStructureSet := [([0], wStruct0), ([1], wStruct1)]

/-- Slice `i` of an assembled structure, read back as the `i`-th block of
`m` consecutive atoms. -/
def sliceAtoms (s : AtomicStructure) (m i : Nat) : List Atom :=
  (s.atoms.drop (i * m)).take m

/-- Two-slice kink map fixture: one transition from offset 0 to offset 1. -/
def wKm2 : KinkMap := [[0], [1]]

/-- Four-slice kink map fixture `[0, 0, 1, 1]` of the notebook. -/
def wKm4 : KinkMap := [[0], [0], [1], [1]]

/-- Ten-slice kink map fixture `[0]*5 + [1]*5` of the notebook. -/
def wKm10 : KinkMap := List.replicate 5 [(0 : Int)] ++ List.replicate 5 [(1 : Int)]

/-- Result of building `wKm2` as a cylinder. -/
def wResCyl : AtomicStructure × AtomicStructure :=
  (build wKm2 wGset wUnit .cylinder).toOption.getD (emptyStructure, emptyStructure)

/-- Result of building `wKm2` as a quadrupole. -/
def wResQuad : AtomicStructure × AtomicStructure :=
  (build wKm2 wGset wUnit .quadrupole).toOption.getD (emptyStructure, emptyStructure)

/-- Result of building `wKm4` as a cylinder. -/
def wResCyl4 : AtomicStructure × AtomicStructure :=
  (build wKm4 wGset wUnit .cylinder).toOption.getD (emptyStructure, emptyStructure)

/-- Result of building `wKm4` as a quadrupole. -/
def wResQuad4 : AtomicStructure × AtomicStructure :=
  (build wKm4 wGset wUnit .quadrupole).toOption.getD (emptyStructure, emptyStructure)

/-- Result of building the uniform two-slice zero map as a quadrupole. -/
def wRes2 : AtomicStructure × AtomicStructure :=
  (build (List.replicate 2 [(0 : Int)]) wGset wUnit .quadrupole).toOption.getD
    (emptyStructure, emptyStructure)

/-- Glide-structure fixture keyed by two-core offset pairs: it covers the
per-core offsets 0 and 1 individually (as the pairs (0,0) and (1,1)) but not
the combination (0,1). -/
def wGsetPair : GlideStructureSet := [([0, 0], wStruct0), ([1, 1], wStruct1)]

/-- Result of the first pipeline stage on `wKm10`. -/
def wRes9 : AtomicStructure × List AtomicStructure × List Nat :=
  (build_kink_glide_structs wKm10 wGset wUnit).toOption.getD (emptyStructure, [], [])

/-- Result of the first pipeline stage on `wKm2`. -/
def wRes10 : AtomicStructure × List AtomicStructure × List Nat :=
  (build_kink_glide_structs wKm2 wGset wUnit).toOption.getD (emptyStructure, [], [])

/-! ### Validation lemmas -/

theorem build_eq_ok {km : KinkMap} {gset : GlideStructureSet} {u : UnitCell} {m : Mode}
    {b k : AtomicStructure} (h : build km gset u m = .ok (b, k)) :
    km.isEmpty = false ∧ arityOk km = true ∧
      firstMissing gset km = none ∧ firstMismatch gset u km = none ∧
      b = { atoms := repAtoms u.atoms u.zPeriod 0 km.length
          , cell := outCell u km.length (shearTerm m km u.glide), pbc := modePbc m } ∧
      k = { atoms := stackSlices gset u.zPeriod 0 km
          , cell := outCell u km.length (shearTerm m km u.glide), pbc := modePbc m } := by
  unfold build at h
  split at h
  · exact absurd h (by simp)
  next h1 =>
    split at h
    · exact absurd h (by simp)
    next h2 =>
      split at h
      · exact absurd h (by simp)
      next h3 =>
        split at h
        · exact absurd h (by simp)
        next h4 =>
          simp only [Except.ok.injEq, Prod.mk.injEq] at h
          refine ⟨by simpa using h1, by simpa using h2, h3, h4, h.1.symm, h.2.symm⟩

theorem firstMissing_some {gset : GlideStructureSet} {km : KinkMap} {o : Offset}
    (h : firstMissing gset km = some o) : o ∈ km ∧ findStruct gset o = none := by
  induction km with
  | nil => simp [firstMissing] at h
  | cons a rest ih =>
    unfold firstMissing at h
    cases hfa : findStruct gset a with
    | none =>
      rw [hfa] at h
      simp only [Option.some.injEq] at h
      subst h
      exact ⟨List.mem_cons_self a rest, hfa⟩
    | some s =>
      rw [hfa] at h
      rcases ih h with ⟨hmem, hnone⟩
      exact ⟨List.mem_cons_of_mem a hmem, hnone⟩

theorem firstMissing_exists {gset : GlideStructureSet} {km : KinkMap} {o : Offset}
    (ho : o ∈ km) (hn : findStruct gset o = none) : ∃ p, firstMissing gset km = some p := by
  induction km with
  | nil => simp at ho
  | cons a rest ih =>
    unfold firstMissing
    cases hfa : findStruct gset a with
    | none => exact ⟨a, rfl⟩
    | some s =>
      rcases List.mem_cons.mp ho with h1 | h1
      · subst h1
        rw [hn] at hfa
        exact absurd hfa (by simp)
      · exact ih h1

theorem firstMissing_none {gset : GlideStructureSet} {km : KinkMap}
    (h : firstMissing gset km = none) : ∀ o ∈ km, ∃ s, findStruct gset o = some s := by
  intro o ho
  cases hfo : findStruct gset o with
  | none =>
    rcases firstMissing_exists ho hfo with ⟨p, hp⟩
    rw [hp] at h
    exact absurd h (by simp)
  | some s => exact ⟨s, rfl⟩

theorem firstMismatch_none {gset : GlideStructureSet} {u : UnitCell} {km : KinkMap}
    (h : firstMismatch gset u km = none) :
    ∀ o ∈ km, speciesOf (structFor gset o).atoms = speciesOf u.atoms := by
  induction km with
  | nil => simp
  | cons a rest ih =>
    unfold firstMismatch at h
    split at h
    · rename_i heq
      intro o ho
      rcases List.mem_cons.mp ho with h1 | h1
      · subst h1; exact heq
      · exact ih h o h1
    · exact absurd h (by simp)

/-- Species agreement forces atom-count agreement. -/
theorem length_of_speciesOf_eq {ats bts : List Atom}
    (h : speciesOf ats = speciesOf bts) : ats.length = bts.length := by
  have := congrArg List.length h
  simpa [speciesOf] using this

/-! ### Stacking lemmas -/

theorem stackSlices_length {gset : GlideStructureSet} {zp : ℚ} {km : KinkMap} {m : Nat}
    (h : ∀ o ∈ km, ((structFor gset o).atoms).length = m) :
    ∀ i, (stackSlices gset zp i km).length = km.length * m := by
  induction km with
  | nil => intro i; simp [stackSlices]
  | cons a rest ih =>
    intro i
    have ha : ((structFor gset a).atoms).length = m := h a (List.mem_cons_self a rest)
    have hr : ∀ o ∈ rest, ((structFor gset o).atoms).length = m :=
      fun o ho => h o (List.mem_cons_of_mem a ho)
    simp only [stackSlices, List.length_append, List.length_map, ha, ih hr (i + 1),
      List.length_cons]
    ring

theorem stackSlices_slice {gset : GlideStructureSet} {zp : ℚ} {km : KinkMap} {m : Nat}
    (h : ∀ o ∈ km, ((structFor gset o).atoms).length = m) :
    ∀ i0 j (hj : j < km.length),
      ((stackSlices gset zp i0 km).drop (j * m)).take m
        = ((structFor gset (km.get ⟨j, hj⟩)).atoms).map
            (translateZ (((i0 + j : Nat) : ℚ) * zp)) := by
  induction km with
  | nil => intro i0 j hj; simp at hj
  | cons a rest ih =>
    intro i0 j hj
    have ha : ((structFor gset a).atoms).length = m := h a (List.mem_cons_self a rest)
    have hr : ∀ o ∈ rest, ((structFor gset o).atoms).length = m :=
      fun o ho => h o (List.mem_cons_of_mem a ho)
    cases j with
    | zero =>
      simp only [stackSlices, Nat.zero_mul, List.drop_zero, List.get]
      have hlen : ((structFor gset a).atoms.map (translateZ ((i0 : ℚ) * zp))).length = m := by
        simp [ha]
      rw [← hlen, List.take_left]
      simp
    | succ j0 =>
      have hj0 : j0 < rest.length := by simpa using hj
      have hstep : (j0 + 1) * m
          = ((structFor gset a).atoms.map (translateZ ((i0 : ℚ) * zp))).length + j0 * m := by
        simp [ha]
        ring
      simp only [stackSlices, hstep, List.drop_append]
      have := ih hr (i0 + 1) j0 hj0
      rw [this]
      have harith : (i0 + 1) + j0 = i0 + (j0 + 1) := by omega
      simp [harith]

theorem stackSlices_replicate {gset : GlideStructureSet} {zp : ℚ} {z0 : Offset}
    {s0 : AtomicStructure} (h0 : findStruct gset z0 = some s0) :
    ∀ n i, stackSlices gset zp i (List.replicate n z0) = repAtoms s0.atoms zp i n := by
  intro n
  induction n with
  | zero => intro i; simp [stackSlices, repAtoms]
  | succ n0 ih =>
    intro i
    simp only [List.replicate_succ, stackSlices, repAtoms, structFor, h0, Option.getD_some]
    rw [ih (i + 1)]

theorem getLastD_replicate {a d : Offset} : ∀ n, (List.replicate (n + 1) a).getLastD d = a := by
  intro n
  induction n with
  | zero => rfl
  | succ n0 ih =>
    rw [List.replicate_succ]
    simpa using ih

theorem offsetJump_replicate_zero : ∀ n, offsetJump (List.replicate (n + 1) [(0 : Int)]) = 0 := by
  intro n
  unfold offsetJump
  rw [getLastD_replicate (n := n)]
  simp [List.replicate_succ]

/-! ### Deduplication and index lemmas for the two-stage pipeline -/

theorem mem_addUnique {acc : KinkMap} {a o : Offset} :
    o ∈ addUnique acc a ↔ o ∈ acc ∨ o = a := by
  unfold addUnique
  split
  next hmem =>
    constructor
    · exact fun h => Or.inl h
    · rintro (h | h)
      · exact h
      · subst h; exact hmem
  next hmem => simp

theorem mem_foldl_addUnique {km : KinkMap} :
    ∀ acc o, o ∈ km.foldl addUnique acc ↔ o ∈ acc ∨ o ∈ km := by
  induction km with
  | nil => intro acc o; simp
  | cons a rest ih =>
    intro acc o
    rw [List.foldl_cons, ih (addUnique acc a) o, mem_addUnique]
    constructor
    · rintro ((h | h) | h)
      · exact Or.inl h
      · rw [h]; exact Or.inr (List.mem_cons_self a rest)
      · exact Or.inr (List.mem_cons_of_mem a h)
    · rintro (h | h)
      · exact Or.inl (Or.inl h)
      · rcases List.mem_cons.mp h with h1 | h1
        · exact Or.inl (Or.inr h1)
        · exact Or.inr h1

theorem mem_uniques {km : KinkMap} {o : Offset} : o ∈ uniques km ↔ o ∈ km := by
  unfold uniques
  rw [mem_foldl_addUnique]
  simp

theorem nodup_addUnique {acc : KinkMap} {a : Offset} (h : acc.Nodup) :
    (addUnique acc a).Nodup := by
  unfold addUnique
  split
  · exact h
  next hmem =>
    rw [List.nodup_append]
    refine ⟨h, List.nodup_singleton a, ?_⟩
    intro x hx hxa
    rw [List.mem_singleton] at hxa
    rw [hxa] at hx
    exact hmem hx

theorem nodup_foldl_addUnique {km : KinkMap} :
    ∀ acc : KinkMap, acc.Nodup → (km.foldl addUnique acc).Nodup := by
  induction km with
  | nil => intro acc h; simpa using h
  | cons a rest ih =>
    intro acc h
    rw [List.foldl_cons]
    exact ih (addUnique acc a) (nodup_addUnique h)

theorem nodup_uniques {km : KinkMap} : (uniques km).Nodup :=
  nodup_foldl_addUnique [] List.nodup_nil

theorem length_uniques {km : KinkMap} : (uniques km).length = km.toFinset.card := by
  have h1 : (uniques km).toFinset = km.toFinset := by
    ext o
    simp [List.mem_toFinset, mem_uniques]
  rw [← h1, List.toFinset_card_of_nodup nodup_uniques]

theorem idxOf_lt_length {l : KinkMap} {o : Offset} (h : o ∈ l) : idxOf l o < l.length := by
  induction l with
  | nil => simp at h
  | cons a rest ih =>
    unfold idxOf
    split
    · simp
    next hne =>
      rcases List.mem_cons.mp h with h1 | h1
      · exact absurd h1.symm hne
      · simpa using ih h1

theorem getD_idxOf {l : KinkMap} {o d : Offset} (h : o ∈ l) : l.getD (idxOf l o) d = o := by
  induction l with
  | nil => simp at h
  | cons a rest ih =>
    unfold idxOf
    split
    next heq => simpa using heq
    next hne =>
      have h1 : o ∈ rest := by
        rcases List.mem_cons.mp h with h2 | h2
        · exact absurd h2.symm hne
        · exact h2
      simpa using ih h1

theorem getD_map_idxOf {l : KinkMap} {o : Offset} {f : Offset → AtomicStructure}
    {d : AtomicStructure} (h : o ∈ l) : (l.map f).getD (idxOf l o) d = f o := by
  induction l with
  | nil => simp at h
  | cons a rest ih =>
    unfold idxOf
    split
    next heq => simp [heq]
    next hne =>
      have h1 : o ∈ rest := by
        rcases List.mem_cons.mp h with h2 | h2
        · exact absurd h2.symm hne
        · exact h2
      simpa using ih h1

theorem build_ok_of_valid {km : KinkMap} {gset : GlideStructureSet} {u : UnitCell} {m : Mode}
    (h1 : km.isEmpty = false) (h2 : arityOk km = true)
    (h3 : firstMissing gset km = none) (h4 : firstMismatch gset u km = none) :
    build km gset u m = .ok
      ( { atoms := repAtoms u.atoms u.zPeriod 0 km.length
        , cell := outCell u km.length (shearTerm m km u.glide), pbc := modePbc m }
      , { atoms := stackSlices gset u.zPeriod 0 km
        , cell := outCell u km.length (shearTerm m km u.glide), pbc := modePbc m } ) := by
  unfold build
  simp [h1, h2, h3, h4]

theorem glide_structs_eq_ok {km : KinkMap} {gset : GlideStructureSet} {u : UnitCell}
    {rb : AtomicStructure} {gs : List AtomicStructure} {sm : List Nat}
    (h : build_kink_glide_structs km gset u = .ok (rb, gs, sm)) :
    km.isEmpty = false ∧ arityOk km = true ∧
      firstMissing gset km = none ∧ firstMismatch gset u km = none ∧
      rb = { atoms := repAtoms u.atoms u.zPeriod 0 km.length
           , cell := outCell u km.length (0, 0), pbc := modePbc .cylinder } ∧
      gs = (uniques km).map (structFor gset) ∧ sm = km.map (idxOf (uniques km)) := by
  unfold build_kink_glide_structs at h
  split at h
  · exact absurd h (by simp)
  next h1 =>
    split at h
    · exact absurd h (by simp)
    next h2 =>
      split at h
      · exact absurd h (by simp)
      next h3 =>
        split at h
        · exact absurd h (by simp)
        next h4 =>
          simp only [Except.ok.injEq, Prod.mk.injEq] at h
          exact ⟨by simpa using h1, by simpa using h2, h3, h4,
            h.1.symm, h.2.1.symm, h.2.2.symm⟩

theorem stackIdx_map_idxOf {km km2 : KinkMap} {gset : GlideStructureSet} {zp : ℚ}
    (hsub : ∀ o ∈ km2, o ∈ uniques km) :
    ∀ i, stackIdx ((uniques km).map (structFor gset)) zp i (km2.map (idxOf (uniques km)))
        = stackSlices gset zp i km2 := by
  induction km2 with
  | nil => intro i; simp [stackIdx, stackSlices]
  | cons a rest ih =>
    intro i
    have ha : a ∈ uniques km := hsub a (List.mem_cons_self a rest)
    have hr : ∀ o ∈ rest, o ∈ uniques km := fun o ho => hsub o (List.mem_cons_of_mem a ho)
    simp only [List.map_cons, stackIdx, stackSlices, getD_map_idxOf ha, ih hr (i + 1)]

/-! ### Claim theorems -/

/-- C1: for every valid build call and every slice index `i`, the atomic
positions of slice `i` of the returned kink structure are the atomic positions
of the reference structure of `kink_map[i]`, translated in z by `i` slice
heights. -/
theorem build_slice_positions {km : KinkMap} {gset : GlideStructureSet} {u : UnitCell}
    {m : Mode} {b k : AtomicStructure} (h : build km gset u m = .ok (b, k))
    (i : Nat) (hi : i < km.length) :
    (sliceAtoms k u.atoms.length i).map Atom.pos
      = ((structFor gset (km.get ⟨i, hi⟩)).atoms).map
          (fun a0 => (translateZ ((i : ℚ) * u.zPeriod) a0).pos) := by
  obtain ⟨_, _, _, h4, _, hk⟩ := build_eq_ok h
  have hlen : ∀ o ∈ km, ((structFor gset o).atoms).length = u.atoms.length :=
    fun o ho => length_of_speciesOf_eq (firstMismatch_none h4 o ho)
  subst hk
  have hslice := @stackSlices_slice gset u.zPeriod km u.atoms.length hlen 0 i hi
  simp only [sliceAtoms]
  rw [hslice]
  simp [List.map_map, Function.comp]

/-- C2: the QUADRUPOLE-mode output cell carries the shear term
`(kink_map[-1] - kink_map[0]) * glide_vector`, while the CYLINDER-mode output
cell carries a zero shear term for the same kink map. -/
theorem build_shear_terms {km : KinkMap} {gset : GlideStructureSet} {u : UnitCell}
    {bq kq bc kc : AtomicStructure}
    (hq : build km gset u .quadrupole = .ok (bq, kq))
    (hc : build km gset u .cylinder = .ok (bc, kc)) :
    cellShear kq.cell = scaleGlide (offsetJump km) u.glide ∧ cellShear kc.cell = (0, 0) := by
  obtain ⟨_, _, _, _, _, hkq⟩ := build_eq_ok hq
  obtain ⟨_, _, _, _, _, hkc⟩ := build_eq_ok hc
  subst hkq hkc
  constructor
  · simp [cellShear, outCell, shearTerm]
  · simp [cellShear, outCell, shearTerm]

/-- C4: in CYLINDER mode every valid kink map of length N yields a kink
structure with exactly N times the atom count of the unit cell. -/
theorem build_cylinder_atom_count {km : KinkMap} {gset : GlideStructureSet} {u : UnitCell}
    {b k : AtomicStructure} (h : build km gset u .cylinder = .ok (b, k)) :
    k.atoms.length = km.length * u.atoms.length := by
  obtain ⟨_, _, _, h4, _, hk⟩ := build_eq_ok h
  have hlen : ∀ o ∈ km, ((structFor gset o).atoms).length = u.atoms.length :=
    fun o ho => length_of_speciesOf_eq (firstMismatch_none h4 o ho)
  subst hk
  simpa using stackSlices_length hlen 0

/-- C6: an empty kink map, or one whose tuple elements have inconsistent
arity, makes the builder fail with `InvalidKinkMapError` in either mode. -/
theorem build_invalid_kink_map {km : KinkMap} {gset : GlideStructureSet} {u : UnitCell}
    (m : Mode) (h : km = [] ∨ arityOk km = false) :
    build km gset u m = .error .invalidKinkMap := by
  rcases h with h | h
  · subst h; rfl
  · unfold build
    split
    · rfl
    · simp [h]

/-- C3: for the kink map `[0, 0, 1, 1]` the CYLINDER-mode output carries
exactly two offset transitions over one full periodic image (one mid-cell and
one at the seam), while the QUADRUPOLE-mode output carries exactly one, its
cell shear absorbing the seam transition. -/
theorem kink_map_0011_transitions {gset : GlideStructureSet} {u : UnitCell}
    {bc kc bq kq : AtomicStructure} (hg : u.glide ≠ (0, 0))
    (hc : build [[0], [0], [1], [1]] gset u .cylinder = .ok (bc, kc))
    (hq : build [[0], [0], [1], [1]] gset u .quadrupole = .ok (bq, kq)) :
    transitionCount [[0], [0], [1], [1]] kc u.glide = 2 ∧
      transitionCount [[0], [0], [1], [1]] kq u.glide = 1 := by
  obtain ⟨_, _, _, _, _, hkc⟩ := build_eq_ok hc
  obtain ⟨_, _, _, _, _, hkq⟩ := build_eq_ok hq
  subst hkc hkq
  have hint : internalTransitions [[0], [0], [1], [1]] = 1 := by decide
  have hjump : offsetJump [[0], [0], [1], [1]] = 1 := by decide
  have hone : scaleGlide (offsetJump [[0], [0], [1], [1]]) u.glide = u.glide := by
    rw [hjump]
    unfold scaleGlide
    simp
  constructor
  · simp only [transitionCount, hint, seamTransitions, cellShear, outCell, shearTerm, hone]
    rw [if_neg]
    · exact fun hcontra => hg hcontra.symm
  · simp [transitionCount, hint, seamTransitions, cellShear, outCell, shearTerm]

/-- C5: whenever some offset tuple of the kink map has no entry in the
glide-structure set, the builder fails with `MissingReferenceError` carrying an
offending offset; lookup is by the exact tuple, so per-core coverage does not
help. -/
theorem build_missing_reference {km : KinkMap} {gset : GlideStructureSet} {u : UnitCell}
    (hne : km ≠ []) (har : arityOk km = true)
    (hmiss : ∃ o ∈ km, findStruct gset o = none) :
    ∃ o ∈ km, findStruct gset o = none ∧
      ∀ m : Mode, build km gset u m = .error (.missingReference o) := by
  obtain ⟨o, ho, hn⟩ := hmiss
  obtain ⟨p, hp⟩ := firstMissing_exists ho hn
  obtain ⟨hpmem, hpnone⟩ := firstMissing_some hp
  refine ⟨p, hpmem, hpnone, fun m => ?_⟩
  have h1 : km.isEmpty = false := by
    cases km
    · exact absurd rfl hne
    · rfl
  unfold build
  simp [h1, har, hp]

/-- C7: a uniform kink map of N zero offsets builds, in either mode, a kink
structure that is exactly N stacked z-copies of the zero-offset reference
structure, with an unsheared cell. -/
theorem uniform_map_replication {n : Nat} {gset : GlideStructureSet} {u : UnitCell}
    {m : Mode} {s0 : AtomicStructure} {b k : AtomicStructure}
    (h0 : findStruct gset [(0 : Int)] = some s0)
    (h : build (List.replicate n [(0 : Int)]) gset u m = .ok (b, k)) :
    k.atoms = repAtoms s0.atoms u.zPeriod 0 n ∧ k.cell = outCell u n (0, 0) := by
  obtain ⟨h1, _, _, _, _, hk⟩ := build_eq_ok h
  subst hk
  have hn : n ≠ 0 := by
    intro h0n
    rw [h0n] at h1
    simp at h1
  obtain ⟨n0, rfl⟩ := Nat.exists_eq_succ_of_ne_zero hn
  constructor
  · simpa using stackSlices_replicate h0 (n0 + 1) 0
  · cases m
    · simp [shearTerm]
    · simp [shearTerm, offsetJump_replicate_zero n0, scaleGlide]

/-- C9: the first pipeline stage returns one glide structure per distinct
offset tuple of the kink map, and a struct map of the map's length whose entry
for slice `i` indexes the glide structure of `kink_map[i]`. -/
theorem glide_structs_distinct_count {km : KinkMap} {gset : GlideStructureSet} {u : UnitCell}
    {rb : AtomicStructure} {gs : List AtomicStructure} {sm : List Nat}
    (h : build_kink_glide_structs km gset u = .ok (rb, gs, sm)) :
    gs.length = km.toFinset.card ∧ sm.length = km.length ∧
      ∀ i (hi : i < km.length),
        sm.getD i 0 < gs.length ∧
          gs.getD (sm.getD i 0) emptyStructure = structFor gset (km.get ⟨i, hi⟩) := by
  obtain ⟨_, _, _, _, _, hgs, hsm⟩ := glide_structs_eq_ok h
  subst hgs hsm
  refine ⟨by simp [length_uniques], by simp, ?_⟩
  intro i hi
  have hgetd : (km.map (idxOf (uniques km))).getD i 0 = idxOf (uniques km) (km.get ⟨i, hi⟩) := by
    have hlen : i < (km.map (idxOf (uniques km))).length := by simpa using hi
    rw [List.getD_eq_getElem _ _ hlen]
    simp
  have hmem : km.get ⟨i, hi⟩ ∈ uniques km := mem_uniques.mpr (km.get_mem i hi)
  constructor
  · rw [hgetd]
    simpa using idxOf_lt_length hmem
  · rw [hgetd]
    exact getD_map_idxOf hmem

/-- C10: the single-call cylinder build agrees with the two-stage pipeline:
building the glide structures and struct map first, then assembling the kink
from them unchanged, returns exactly the single call's (bulk, kink) pair. -/
theorem pipeline_equivalence {km : KinkMap} {gset : GlideStructureSet} {u : UnitCell}
    {rb : AtomicStructure} {gs : List AtomicStructure} {sm : List Nat}
    (h : build_kink_glide_structs km gset u = .ok (rb, gs, sm)) :
    build km gset u .cylinder = .ok (build_kink_from_glide_cyls rb gs sm) := by
  obtain ⟨h1, h2, h3, h4, hrb, hgs, hsm⟩ := glide_structs_eq_ok h
  have hcyl := @build_ok_of_valid km gset u .cylinder h1 h2 h3 h4
  rw [hcyl]
  have hlen0 : km.length ≠ 0 := by
    intro hc
    rw [List.length_eq_zero] at hc
    rw [hc] at h1
    simp at h1
  have hzp : rb.cell.c.z / ((sm.length : Nat) : ℚ) = u.zPeriod := by
    rw [hrb, hsm]
    simp only [outCell, List.length_map]
    exact mul_div_cancel_left₀ u.zPeriod (Nat.cast_ne_zero.mpr hlen0)
  have hstack : stackIdx gs u.zPeriod 0 sm = stackSlices gset u.zPeriod 0 km := by
    rw [hgs, hsm]
    exact stackIdx_map_idxOf (fun o ho => mem_uniques.mpr ho) 0
  have hrhs : build_kink_from_glide_cyls rb gs sm
      = (rb, { atoms := stackIdx gs u.zPeriod 0 sm, cell := rb.cell, pbc := rb.pbc }) := by
    simp only [build_kink_from_glide_cyls, hzp]
  rw [hrhs, hstack, hrb]
  rfl

/-! ### Witnesses -/

theorem build_slice_positions_witness :
    (sliceAtoms wResCyl.2 wUnit.atoms.length 1).map Atom.pos
      = ((structFor wGset (wKm2.get ⟨1, by decide⟩)).atoms).map
          (fun a0 => (translateZ (((1 : Nat) : ℚ) * wUnit.zPeriod) a0).pos) := by
  have h : build wKm2 wGset wUnit .cylinder = .ok (wResCyl.1, wResCyl.2) := rfl
  exact build_slice_positions h 1 (by decide)

theorem build_shear_terms_witness :
    cellShear wResQuad.2.cell = scaleGlide (offsetJump wKm2) wUnit.glide ∧
      cellShear wResCyl.2.cell = (0, 0) := by
  have hq : build wKm2 wGset wUnit .quadrupole = .ok (wResQuad.1, wResQuad.2) := rfl
  have hc : build wKm2 wGset wUnit .cylinder = .ok (wResCyl.1, wResCyl.2) := rfl
  exact build_shear_terms hq hc

theorem kink_map_0011_transitions_witness :
    transitionCount [[0], [0], [1], [1]] wResCyl4.2 wUnit.glide = 2 ∧
      transitionCount [[0], [0], [1], [1]] wResQuad4.2 wUnit.glide = 1 := by
  have hg : wUnit.glide ≠ ((0 : ℚ), (0 : ℚ)) := by
    intro hcontra
    have h1 := congrArg Prod.fst hcontra
    norm_num [wUnit] at h1
  have hc : build [[0], [0], [1], [1]] wGset wUnit .cylinder
      = .ok (wResCyl4.1, wResCyl4.2) := rfl
  have hq : build [[0], [0], [1], [1]] wGset wUnit .quadrupole
      = .ok (wResQuad4.1, wResQuad4.2) := rfl
  exact kink_map_0011_transitions hg hc hq

theorem build_cylinder_atom_count_witness :
    wResCyl.2.atoms.length = wKm2.length * wUnit.atoms.length := by
  have h : build wKm2 wGset wUnit .cylinder = .ok (wResCyl.1, wResCyl.2) := rfl
  exact build_cylinder_atom_count h

theorem build_missing_reference_witness :
    ∃ o ∈ ([[0, 1]] : KinkMap), findStruct wGsetPair o = none ∧
      ∀ m : Mode, build [[0, 1]] wGsetPair wUnit m = .error (.missingReference o) :=
  build_missing_reference (by decide) (by decide) ⟨[0, 1], by decide, rfl⟩

theorem build_invalid_kink_map_witness :
    build [[0], [0, 1]] wGset wUnit .cylinder = .error .invalidKinkMap :=
  build_invalid_kink_map .cylinder (Or.inr (by decide))

theorem uniform_map_replication_witness :
    wRes2.2.atoms = repAtoms wStruct0.atoms wUnit.zPeriod 0 2 ∧
      wRes2.2.cell = outCell wUnit 2 (0, 0) := by
  have h0 : findStruct wGset [(0 : Int)] = some wStruct0 := rfl
  have h : build (List.replicate 2 [(0 : Int)]) wGset wUnit .quadrupole
      = .ok (wRes2.1, wRes2.2) := rfl
  exact uniform_map_replication h0 h

theorem glide_structs_distinct_count_witness :
    wRes9.2.1.length = wKm10.toFinset.card ∧ wKm10.toFinset.card = 2 ∧
      wRes9.2.2.length = wKm10.length ∧
      wRes9.2.1.getD (wRes9.2.2.getD 0 0) emptyStructure
        = structFor wGset (wKm10.get ⟨0, by decide⟩) := by
  have h : build_kink_glide_structs wKm10 wGset wUnit
      = .ok (wRes9.1, wRes9.2.1, wRes9.2.2) := rfl
  have hall := glide_structs_distinct_count h
  exact ⟨hall.1, by decide, hall.2.1, (hall.2.2 0 (by decide)).2⟩

theorem pipeline_equivalence_witness :
    build wKm2 wGset wUnit .cylinder
      = .ok (build_kink_from_glide_cyls wRes10.1 wRes10.2.1 wRes10.2.2) := by
  have h : build_kink_glide_structs wKm2 wGset wUnit
      = .ok (wRes10.1, wRes10.2.1, wRes10.2.2) := rfl
  exact pipeline_equivalence h

end Kink

